import Mathlib

/-!
Verification of the mygrid_pv transformation pipeline (src/main.rs):
the four stages `smooth`, `stretch`, `interpolate`, `normalize` over
vectors of `PlotData`, shallowly embedded in Lean.

Modelling conventions:
* `f64` values are modelled by `F`: a rational number (`F.fin q`), one of
  the two infinities (`F.pinf`, `F.ninf`), or `F.nan`.  Arithmetic on
  finite values is exact rational arithmetic (f64 rounding is abstracted
  away, and overflow of finite results to infinity is not modelled);
  the IEEE-754 special-value rules for 0-division, `0 * inf`,
  `inf - inf`, NaN propagation, and Rust's NaN-ignoring `f64::max` /
  `f64::min` are modelled exactly, since the claims under study are
  about those paths.
* `u32` fields are modelled by `Nat`; the `as i32` / `as u32` casts in
  `interpolate` are modelled by `asI32` / `i32AsU32` (two's-complement
  reinterpretation, faithful for the u32 range).
* A Rust panic (out-of-bounds index, including the `len() - 1` underflow
  on an empty vector) is modelled by the function returning `none`; a
  normal return is `some`.
-/

namespace MygridPV

/-- Model of `f64`: finite rational, ±infinity, or NaN. -/
inductive F where
  | fin (q : ℚ)
  | pinf
  | ninf
  | nan
deriving DecidableEq, Repr

namespace F

/-- IEEE negation. -/
def neg : F → F
  | fin q => fin (-q)
  | pinf => ninf
  | ninf => pinf
  | nan => nan

/-- IEEE addition (signed zeros ignored; `(+inf) + (-inf) = NaN`). -/
def add : F → F → F
  | nan, _ => nan
  | _, nan => nan
  | pinf, ninf => nan
  | ninf, pinf => nan
  | pinf, _ => pinf
  | _, pinf => pinf
  | ninf, _ => ninf
  | _, ninf => ninf
  | fin a, fin b => fin (a + b)

/-- IEEE subtraction, `a - b = a + (-b)`. -/
def sub (a b : F) : F := add a (neg b)

/-- IEEE multiplication (`0 * inf = NaN`). -/
def mul : F → F → F
  | nan, _ => nan
  | _, nan => nan
  | fin a, fin b => fin (a * b)
  | fin a, pinf => if a = 0 then nan else if 0 < a then pinf else ninf
  | fin a, ninf => if a = 0 then nan else if 0 < a then ninf else pinf
  | pinf, fin b => if b = 0 then nan else if 0 < b then pinf else ninf
  | ninf, fin b => if b = 0 then nan else if 0 < b then ninf else pinf
  | pinf, pinf => pinf
  | pinf, ninf => ninf
  | ninf, pinf => ninf
  | ninf, ninf => pinf

/-- IEEE division (`x / 0` is ±inf for `x ≠ 0` and NaN for `x = 0`;
`x / ±inf = 0`; `inf / inf = NaN`).  Signed zero is not modelled: every
zero divisor arising in this program is `+0.0`. -/
def div : F → F → F
  | nan, _ => nan
  | _, nan => nan
  | fin a, fin b =>
      if b = 0 then (if a = 0 then nan else if 0 < a then pinf else ninf)
      else fin (a / b)
  | fin _, pinf => fin 0
  | fin _, ninf => fin 0
  | pinf, fin b => if 0 ≤ b then pinf else ninf
  | ninf, fin b => if 0 ≤ b then ninf else pinf
  | pinf, pinf => nan
  | pinf, ninf => nan
  | ninf, pinf => nan
  | ninf, ninf => nan

/-- Rust `f64::max`: if one argument is NaN the other is returned. -/
def maxF : F → F → F
  | nan, b => b
  | a, nan => a
  | pinf, _ => pinf
  | _, pinf => pinf
  | ninf, b => b
  | a, ninf => a
  | fin a, fin b => fin (max a b)

/-- Rust `f64::min`: if one argument is NaN the other is returned. -/
def minF : F → F → F
  | nan, b => b
  | a, nan => a
  | ninf, _ => ninf
  | _, ninf => ninf
  | pinf, b => b
  | a, pinf => a
  | fin a, fin b => fin (min a b)

/-- Rust `f64::round` on a rational: half-way cases away from zero. -/
def rustRound (q : ℚ) : ℤ := if 0 ≤ q then round q else -(round (-q))

/-- `f64::round` lifted to `F` (±inf and NaN round to themselves). -/
def roundF : F → F
  | fin q => fin (rustRound q)
  | pinf => pinf
  | ninf => ninf
  | nan => nan

/-- Rust `as u32` on an `f64`: truncate toward zero and saturate;
NaN casts to 0. -/
def toU32 : F → ℕ
  | fin q => if q < 0 then 0 else min (⌊q⌋.toNat) 4294967295
  | pinf => 4294967295
  | ninf => 0
  | nan => 0

/-- Rust `> 0.0` comparison (false on NaN). -/
def gtZero : F → Bool
  | fin q => decide (0 < q)
  | pinf => true
  | ninf => false
  | nan => false

/-- The value is a finite number (neither ±inf nor NaN). -/
def isFin : F → Bool
  | fin _ => true
  | _ => false

instance : Neg F := ⟨neg⟩
instance : Add F := ⟨add⟩
instance : Sub F := ⟨sub⟩
instance : Mul F := ⟨mul⟩
instance : Div F := ⟨div⟩

end F

open F

/-- The `PlotData` struct of src/main.rs: `minutes: u32`, `x: f64`,
`pv: f64`. -/
structure PlotData where
  minutes : ℕ
  x : F
  pv : F
deriving DecidableEq, Repr

instance : Inhabited PlotData := ⟨⟨0, F.fin 0, F.fin 0⟩⟩

/-- Rust `u32 as i32`: two's-complement reinterpretation (`minutes` is a
`u32`, so the source value is below `2^32`). -/
def asI32 (n : ℕ) : ℤ := if n < 2 ^ 31 then (n : ℤ) else (n : ℤ) - 2 ^ 32

/-- Rust `i32 as u32`: two's-complement reinterpretation. -/
def i32AsU32 (x : ℤ) : ℕ := (x % 2 ^ 32).toNat

/-- The `max_value` fold of `fn normalize`:
`input.iter().map(|p| p.pv).fold(0.0, |acc, p| p.max(acc))`. -/
def pvMax (input : List PlotData) : F :=
  input.foldl (fun acc q => maxF q.pv acc) (F.fin 0)

/-- `fn normalize`: divides each `x` by the last `minutes` and each `pv`
by the 0-floored maximum `pv`.  `input[input.len()-1]` panics on an
empty vector (`none`). -/
def normalize (input : List PlotData) : Option (List PlotData) :=
  match input with
  | [] => none
  | p :: rest =>
    let endMin : F := F.fin (((p :: rest).getLast (List.cons_ne_nil p rest)).minutes : ℚ)
    let maxValue : F := pvMax (p :: rest)
    some ((p :: rest).map (fun q =>
      { minutes := q.minutes,
        x := F.fin (q.minutes : ℚ) / endMin,
        pv := q.pv / maxValue }))

/-- `fn stretch`: keeps the entries with `pv > 0.0`, then rescales their
`minutes` so that the kept range spans 0..1439.  `result[0]` panics when
nothing is kept (`none`). -/
def stretch (input : List PlotData) : Option (List PlotData) :=
  match input.filter (fun p => p.pv.gtZero) with
  | [] => none
  | q :: qs =>
    let start : F := F.fin (q.minutes : ℚ)
    let endMin : F := F.fin (((q :: qs).getLast (List.cons_ne_nil q qs)).minutes : ℚ)
    let factor : F := F.fin 1439 / (endMin - start)
    some ((q :: qs).map (fun p =>
      let minutes : F := maxF (F.fin (p.minutes : ℚ) - start) (F.fin 0) * factor
      { minutes := (minF (maxF minutes.roundF (F.fin 0)) (F.fin 1439)).toU32,
        x := minutes / F.fin 60,
        pv := p.pv }))

/-- The points synthesized by `interpolate` for one consecutive pair:
`for x in x1+1..x2 { push { minutes: x as u32, x: x as f64 / 60.0,
pv: x as f64 * k + m } }`. -/
def synthPoints (x1 x2 : ℤ) (k m : F) : List PlotData :=
  (List.range (x2 - x1 - 1).toNat).map (fun (j : ℕ) =>
    let x : ℤ := x1 + 1 + (j : ℤ)
    { minutes := i32AsU32 x,
      x := F.fin (x : ℚ) / F.fin 60,
      pv := F.fin (x : ℚ) * k + m })

/-- The main loop of `fn interpolate` (`for i in 1..input.len()`): for
each consecutive pair, push the left point and then the synthesized
gap-filling points.  (The `if x1 > 600 { print!("") }` in the source is
an effect-free debug statement and has no observable behavior.) -/
def interpPairs : List PlotData → List PlotData
  | a :: b :: t =>
    let x1 : ℤ := asI32 a.minutes
    let x2 : ℤ := asI32 b.minutes
    let k : F := (a.pv - b.pv) / F.fin ((x1 - x2 : ℤ) : ℚ)
    let m : F := a.pv - F.fin (x1 : ℚ) * k
    a :: (synthPoints x1 x2 k m ++ interpPairs (b :: t))
  | _ => []

/-- `fn interpolate`: fills every integer-minute gap between consecutive
points by linear interpolation.  `input[input.len()-1]` panics on an
empty vector (`none`). -/
def interpolate (input : List PlotData) : Option (List PlotData) :=
  match input with
  | [] => none
  | p :: rest =>
    some (interpPairs (p :: rest) ++ [(p :: rest).getLast (List.cons_ne_nil p rest)])

/-- Modelled from the spec: the Interpolator main loop with the explicit
zero-width-interval policy of §4.3/§9 — before computing the slope, check
whether the pair's minutes coincide; if so, "skip interpolation for that
pair and keep both points" instead of using the zero divisor. -/
def interpPairsGuarded : List PlotData → List PlotData
  | a :: b :: t =>
    let x1 : ℤ := asI32 a.minutes
    let x2 : ℤ := asI32 b.minutes
    if x1 = x2 then a :: interpPairsGuarded (b :: t)
    else
      let k : F := (a.pv - b.pv) / F.fin ((x1 - x2 : ℤ) : ℚ)
      let m : F := a.pv - F.fin (x1 : ℚ) * k
      a :: (synthPoints x1 x2 k m ++ interpPairsGuarded (b :: t))
  | _ => []

/-- Modelled from the spec: `interpolate` with the explicit zero-width
guard of `interpPairsGuarded`. -/
def interpolateGuarded (input : List PlotData) : Option (List PlotData) :=
  match input with
  | [] => none
  | p :: rest =>
    some (interpPairsGuarded (p :: rest) ++ [(p :: rest).getLast (List.cons_ne_nil p rest)])

/-- The interior points produced by `fn smooth`
(`for i in 1..input.len()-1`): each interior element is replaced by the
3-tap box average of itself and its two neighbors. -/
def smoothMid : List PlotData → List PlotData
  | a :: b :: c :: t =>
    { minutes := b.minutes,
      x := b.x,
      pv := (a.pv + b.pv + c.pv) / F.fin 3 } :: smoothMid (b :: c :: t)
  | _ => []

/-- `fn smooth`: one round of 3-tap box smoothing; first and last
elements are pushed unchanged.  `input[0]` panics on an empty vector
(`none`). -/
def smooth (input : List PlotData) : Option (List PlotData) :=
  match input with
  | [] => none
  | p :: rest =>
    some (p :: (smoothMid (p :: rest) ++ [(p :: rest).getLast (List.cons_ne_nil p rest)]))

/-! ## Computation lemmas for the `f64` model -/

namespace F

theorem fin_add_fin (a b : ℚ) : fin a + fin b = fin (a + b) := rfl

theorem fin_mul_fin (a b : ℚ) : fin a * fin b = fin (a * b) := rfl

theorem fin_sub_fin (a b : ℚ) : fin a - fin b = fin (a - b) := by
  show add (fin a) (neg (fin b)) = fin (a - b)
  simp [add, neg, sub_eq_add_neg]

theorem fin_div_fin (a b : ℚ) (hb : b ≠ 0) : fin a / fin b = fin (a / b) := by
  show div (fin a) (fin b) = fin (a / b)
  simp [div, hb]

theorem maxF_fin_fin (a b : ℚ) : maxF (fin a) (fin b) = fin (max a b) := rfl

theorem minF_fin_fin (a b : ℚ) : minF (fin a) (fin b) = fin (min a b) := rfl

theorem roundF_fin (q : ℚ) : roundF (fin q) = fin ((rustRound q : ℤ) : ℚ) := rfl

theorem rustRound_natCast (n : ℕ) : rustRound (n : ℚ) = n := by
  simp [rustRound, round_natCast]

theorem toU32_natCast (k : ℕ) (hk : k ≤ 4294967295) : toU32 (fin (k : ℚ)) = k := by
  have h0 : ¬((k : ℚ) < 0) := not_lt.mpr (by positivity)
  simp [toU32, h0, Int.floor_natCast, hk]

theorem isFin_fin (q : ℚ) : isFin (fin q) = true := rfl

theorem gtZero_fin (q : ℚ) : gtZero (fin q) = decide (0 < q) := rfl

theorem fin_div_fin_zero (a : ℚ) :
    fin a / fin 0 = if a = 0 then nan else if 0 < a then pinf else ninf := rfl

theorem fin_mul_pinf (a : ℚ) :
    fin a * pinf = if a = 0 then nan else if 0 < a then pinf else ninf := rfl

theorem nan_div (b : F) : nan / b = nan := by cases b <;> rfl

theorem roundF_nan : roundF nan = nan := rfl

theorem maxF_nan (b : F) : maxF nan b = b := by cases b <;> rfl

theorem toU32_fin (q : ℚ) :
    toU32 (fin q) = if q < 0 then 0 else min (⌊q⌋.toNat) 4294967295 := rfl

end F

/-! ## Claim theorems -/

/-- Helper for C1: whenever no element of the input has `pv > 0.0`,
`stretch` reaches the out-of-bounds index `result[0]` on the empty
filtered vector, i.e. it panics (`none`). -/
theorem stretch_eq_none_of_no_positive (input : List PlotData)
    (h : ∀ p ∈ input, p.pv.gtZero = false) : stretch input = none := by
  have hf : input.filter (fun p => p.pv.gtZero) = [] := by
    rw [List.filter_eq_nil_iff]
    intro p hp
    simp [h p hp]
  simp [stretch, hf]

/-- C1: the claim says an input with no positive `pv` must surface a
distinguishable "no positive samples" error rather than crash.  The
code instead indexes `result[0]` on the empty filtered vector and
panics (modelled as `none`): evaluated here at a concrete
all-nonpositive input. -/
theorem stretch_no_positive_crash :
    stretch [⟨0, F.fin 0, F.fin 0⟩, ⟨360, F.fin 0, F.fin (-1)⟩, ⟨720, F.fin 0, F.fin 0⟩] =
      none :=
  stretch_eq_none_of_no_positive _ (by decide)

/-- C3: the claim says `normalize` guards the division by `maxPv` and
never propagates NaN.  On an all-zero input `max_value = 0.0` and the
code computes `pv = 0.0 / 0.0 = NaN` for every point, propagating NaN
to the whole output. -/
theorem normalize_zero_max_propagates_nan :
    normalize [⟨0, F.fin 0, F.fin 0⟩, ⟨10, F.fin 0, F.fin 0⟩] =
      some [⟨0, F.fin 0, F.nan⟩, ⟨10, F.fin 1, F.nan⟩] := by
  simp [normalize, pvMax, F.maxF_fin_fin, F.fin_div_fin, F.fin_div_fin_zero]

/-- C4: the claim says a single-positive-point input is either passed
through unchanged or rejected with an "insufficient data" error, never
yielding a NaN-derived `minuteOfDay` or `x`.  The code computes
`factor = 1439.0 / 0.0 = +inf`, then `0.0 * inf = NaN`, so the single
kept point comes out with `x = NaN` (and its `minuteOfDay` rewritten to
0 by the NaN-ignoring `max`): neither a pass-through nor an error.
Evaluated at the spec §8 scenario (minutes [0,360,720,1080,1439],
pv [0,0,10,0,0]). -/
theorem stretch_single_positive_nan_x :
    stretch [⟨0, F.fin 0, F.fin 0⟩, ⟨360, F.fin 0, F.fin 0⟩, ⟨720, F.fin 0, F.fin 10⟩,
             ⟨1080, F.fin 0, F.fin 0⟩, ⟨1439, F.fin 0, F.fin 0⟩] =
      some [⟨0, F.nan, F.fin 10⟩] := by
  simp [stretch, List.filter, F.gtZero_fin, F.fin_sub_fin, F.maxF_fin_fin, F.fin_div_fin,
    F.fin_div_fin_zero, F.fin_mul_pinf, F.nan_div, F.roundF_nan, F.maxF_nan, F.minF_fin_fin,
    F.toU32_fin]

/-- C10: `smooth` does not index out of bounds on short non-empty
inputs: a length-2 input is returned unchanged, and a length-1 input
yields the point duplicated (length 2, so `smooth` is not
length-preserving there). -/
theorem smooth_short_inputs (p q : PlotData) :
    smooth [p] = some [p, p] ∧ smooth [p, q] = some [p, q] :=
  ⟨rfl, rfl⟩

/-- Helper for C5: `smoothMid` (the `for i in 1..len-1` loop) produces
`len - 2` points. -/
theorem smoothMid_length : ∀ l : List PlotData, (smoothMid l).length = l.length - 2
  | [] => rfl
  | [_] => rfl
  | [_, _] => rfl
  | a :: b :: c :: t => by
    have ih := smoothMid_length (b :: c :: t)
    simp only [smoothMid, List.length_cons] at ih ⊢
    omega

theorem smoothMid_getD : ∀ (l : List PlotData) (j : ℕ), j + 2 < l.length →
    (smoothMid l).getD j default =
      { minutes := (l.getD (j+1) default).minutes,
        x := (l.getD (j+1) default).x,
        pv := ((l.getD j default).pv + (l.getD (j+1) default).pv +
               (l.getD (j+2) default).pv) / F.fin 3 }
  | a :: b :: c :: t, 0, _ => by simp [smoothMid]
  | a :: b :: c :: t, j+1, h => by
    have ih := smoothMid_getD (b :: c :: t) j (by simp only [List.length_cons] at h ⊢; omega)
    simpa only [smoothMid, List.getD_cons_succ] using ih
  | [], j, h => by simp at h
  | [_], j, h => by simp at h
  | [_, _], j, h => by simp at h

/-- C5: for every input of length at least 3, `smooth` succeeds and
returns a same-length sequence whose first and last elements equal the
input's, whose every interior element's `pv` is the 3-tap box average
of the pre-smoothing neighbors, and whose `minutes` and `x` fields are
the input's at every index. -/
theorem smooth_box_filter (input : List PlotData) (hlen : 3 ≤ input.length) :
    ∃ out, smooth input = some out ∧
      out.length = input.length ∧
      out.getD 0 default = input.getD 0 default ∧
      out.getD (input.length - 1) default = input.getD (input.length - 1) default ∧
      (∀ i, 0 < i → i + 1 < input.length →
        out.getD i default =
          { minutes := (input.getD i default).minutes,
            x := (input.getD i default).x,
            pv := ((input.getD (i-1) default).pv + (input.getD i default).pv +
                   (input.getD (i+1) default).pv) / F.fin 3 }) ∧
      (∀ i, i < input.length →
        (out.getD i default).minutes = (input.getD i default).minutes ∧
        (out.getD i default).x = (input.getD i default).x) := by
  obtain ⟨p, rest, rfl⟩ := @List.exists_cons_of_ne_nil _ input (fun h => by rw [h] at hlen; simp at hlen)
  have hne : p :: rest ≠ [] := List.cons_ne_nil p rest
  have hout : smooth (p :: rest) =
      some (p :: (smoothMid (p :: rest) ++ [(p :: rest).getLast hne])) := rfl
  have hmidlen : (smoothMid (p :: rest)).length = (p :: rest).length - 2 :=
    smoothMid_length (p :: rest)
  have hlength : (p :: (smoothMid (p :: rest) ++ [(p :: rest).getLast hne])).length =
      (p :: rest).length := by
    have hlen2 := hlen
    simp only [List.length_cons] at hlen2 hmidlen ⊢
    simp only [List.length_append, hmidlen, List.length_cons, List.length_nil]
    omega
  have h0 : (p :: (smoothMid (p :: rest) ++ [(p :: rest).getLast hne])).getD 0 default =
      (p :: rest).getD 0 default := rfl
  have hlast : (p :: (smoothMid (p :: rest) ++ [(p :: rest).getLast hne])).getD
        ((p :: rest).length - 1) default = (p :: rest).getD ((p :: rest).length - 1) default := by
    have hR : (p :: rest).getD ((p :: rest).length - 1) default = (p :: rest).getLast hne := by
      rw [List.getD_eq_getElem _ _ (by omega)]
      exact (List.getLast_eq_getElem _ hne).symm
    rw [hR, show (p :: rest).length - 1 = ((p :: rest).length - 2) + 1 from by omega,
      List.getD_cons_succ, List.getD_append_right _ _ _ _ (by omega), hmidlen]
    simp
  have hint : ∀ i, 0 < i → i + 1 < (p :: rest).length →
      (p :: (smoothMid (p :: rest) ++ [(p :: rest).getLast hne])).getD i default =
        { minutes := ((p :: rest).getD i default).minutes,
          x := ((p :: rest).getD i default).x,
          pv := (((p :: rest).getD (i-1) default).pv + ((p :: rest).getD i default).pv +
                 ((p :: rest).getD (i+1) default).pv) / F.fin 3 } := by
    intro i hi0 hi1
    obtain ⟨j, rfl⟩ : ∃ j, i = j + 1 := ⟨i - 1, by omega⟩
    rw [List.getD_cons_succ, List.getD_append _ _ _ _ (by omega),
      smoothMid_getD (p :: rest) j (by omega)]
    simp
  refine ⟨_, hout, hlength, h0, hlast, hint, ?_⟩
  intro i hi
  rcases Nat.eq_zero_or_pos i with hi0 | hi0
  · subst hi0
    rw [h0]
    exact ⟨rfl, rfl⟩
  · rcases Nat.lt_or_ge (i + 1) (p :: rest).length with hi1 | hi1
    · rw [hint i hi0 hi1]
      exact ⟨rfl, rfl⟩
    · have hieq : i = (p :: rest).length - 1 := by omega
      subst hieq
      rw [hlast]
      exact ⟨rfl, rfl⟩

/-- Witness for C5 at a concrete 3-point input. -/
theorem smooth_box_filter_witness :
    3 ≤ ([⟨0, F.fin 0, F.fin 1⟩, ⟨1, F.fin 1, F.fin 4⟩, ⟨2, F.fin 2, F.fin 7⟩] :
      List PlotData).length ∧
    (∃ out,
      smooth [⟨0, F.fin 0, F.fin 1⟩, ⟨1, F.fin 1, F.fin 4⟩, ⟨2, F.fin 2, F.fin 7⟩] = some out ∧
      out.length = ([⟨0, F.fin 0, F.fin 1⟩, ⟨1, F.fin 1, F.fin 4⟩, ⟨2, F.fin 2, F.fin 7⟩] :
        List PlotData).length ∧
      out.getD 0 default =
        ([⟨0, F.fin 0, F.fin 1⟩, ⟨1, F.fin 1, F.fin 4⟩, ⟨2, F.fin 2, F.fin 7⟩] :
          List PlotData).getD 0 default ∧
      out.getD (([⟨0, F.fin 0, F.fin 1⟩, ⟨1, F.fin 1, F.fin 4⟩, ⟨2, F.fin 2, F.fin 7⟩] :
          List PlotData).length - 1) default =
        ([⟨0, F.fin 0, F.fin 1⟩, ⟨1, F.fin 1, F.fin 4⟩, ⟨2, F.fin 2, F.fin 7⟩] :
          List PlotData).getD
          (([⟨0, F.fin 0, F.fin 1⟩, ⟨1, F.fin 1, F.fin 4⟩, ⟨2, F.fin 2, F.fin 7⟩] :
            List PlotData).length - 1) default ∧
      (∀ i, 0 < i →
        i + 1 < ([⟨0, F.fin 0, F.fin 1⟩, ⟨1, F.fin 1, F.fin 4⟩, ⟨2, F.fin 2, F.fin 7⟩] :
          List PlotData).length →
        out.getD i default =
          { minutes := (([⟨0, F.fin 0, F.fin 1⟩, ⟨1, F.fin 1, F.fin 4⟩, ⟨2, F.fin 2, F.fin 7⟩] :
              List PlotData).getD i default).minutes,
            x := (([⟨0, F.fin 0, F.fin 1⟩, ⟨1, F.fin 1, F.fin 4⟩, ⟨2, F.fin 2, F.fin 7⟩] :
              List PlotData).getD i default).x,
            pv := ((([⟨0, F.fin 0, F.fin 1⟩, ⟨1, F.fin 1, F.fin 4⟩, ⟨2, F.fin 2, F.fin 7⟩] :
                List PlotData).getD (i-1) default).pv +
              (([⟨0, F.fin 0, F.fin 1⟩, ⟨1, F.fin 1, F.fin 4⟩, ⟨2, F.fin 2, F.fin 7⟩] :
                List PlotData).getD i default).pv +
              (([⟨0, F.fin 0, F.fin 1⟩, ⟨1, F.fin 1, F.fin 4⟩, ⟨2, F.fin 2, F.fin 7⟩] :
                List PlotData).getD (i+1) default).pv) / F.fin 3 }) ∧
      (∀ i, i < ([⟨0, F.fin 0, F.fin 1⟩, ⟨1, F.fin 1, F.fin 4⟩, ⟨2, F.fin 2, F.fin 7⟩] :
          List PlotData).length →
        (out.getD i default).minutes =
          (([⟨0, F.fin 0, F.fin 1⟩, ⟨1, F.fin 1, F.fin 4⟩, ⟨2, F.fin 2, F.fin 7⟩] :
            List PlotData).getD i default).minutes ∧
        (out.getD i default).x =
          (([⟨0, F.fin 0, F.fin 1⟩, ⟨1, F.fin 1, F.fin 4⟩, ⟨2, F.fin 2, F.fin 7⟩] :
            List PlotData).getD i default).x)) :=
  ⟨by simp, smooth_box_filter _ (by simp)⟩

/-- Helper: `synthPoints` emits nothing when the interval has no
interior integer minute (`for x in x1+1..x2` is empty). -/
theorem synthPoints_eq_nil {x1 x2 : ℤ} (h : x2 ≤ x1 + 1) (k m : F) :
    synthPoints x1 x2 k m = [] := by
  simp [synthPoints, Int.toNat_eq_zero.mpr (by omega : x2 - x1 - 1 ≤ 0)]

/-- Helper for C9: on a dense list (consecutive minutes differing by 1)
the interpolation loop keeps exactly the points before the last one. -/
theorem interpPairs_dense_eq_dropLast : ∀ (l : List PlotData),
    l.Chain' (fun a b => b.minutes = a.minutes + 1) →
    (∀ p ∈ l, p.minutes ≤ 1439) →
    interpPairs l = l.dropLast
  | [], _, _ => rfl
  | [_], _, _ => rfl
  | a :: b :: t, hchain, hbound => by
    have hab : b.minutes = a.minutes + 1 := (List.chain'_cons.mp hchain).1
    have ha : a.minutes ≤ 1439 := hbound a (by simp)
    have hb : b.minutes ≤ 1439 := hbound b (by simp)
    have h1 : asI32 a.minutes = (a.minutes : ℤ) := by simp only [asI32]; rw [if_pos (by omega)]
    have h2 : asI32 b.minutes = (b.minutes : ℤ) := by simp only [asI32]; rw [if_pos (by omega)]
    have ih := interpPairs_dense_eq_dropLast (b :: t) (List.chain'_cons.mp hchain).2
      (fun p hp => hbound p (by simp [hp]))
    simp only [interpPairs, h1, h2, ih]
    rw [synthPoints_eq_nil (by omega)]
    simp

/-- C9: `interpolate` on an already-dense input (adjacent `minutes`
differ by exactly 1, all within the 0..1439 day range) returns the
input unchanged. -/
theorem interpolate_dense_id (input : List PlotData) (hne : input ≠ [])
    (hdense : input.Chain' (fun a b => b.minutes = a.minutes + 1))
    (hbound : ∀ p ∈ input, p.minutes ≤ 1439) :
    interpolate input = some input := by
  obtain ⟨p, rest, rfl⟩ := List.exists_cons_of_ne_nil hne
  simp only [interpolate, interpPairs_dense_eq_dropLast _ hdense hbound]
  rw [List.dropLast_append_getLast]

/-- Witness for C9 at the spec's end-to-end scenario: minutes
[600, 601, 602] with pv [2, 4, 6] come back unchanged. -/
theorem interpolate_dense_id_witness :
    (([⟨600, F.fin 10, F.fin 2⟩, ⟨601, F.fin 0, F.fin 4⟩, ⟨602, F.fin 0, F.fin 6⟩] :
        List PlotData) ≠ [] ∧
     ([⟨600, F.fin 10, F.fin 2⟩, ⟨601, F.fin 0, F.fin 4⟩, ⟨602, F.fin 0, F.fin 6⟩] :
        List PlotData).Chain' (fun a b => b.minutes = a.minutes + 1) ∧
     (∀ p ∈ ([⟨600, F.fin 10, F.fin 2⟩, ⟨601, F.fin 0, F.fin 4⟩, ⟨602, F.fin 0, F.fin 6⟩] :
        List PlotData), p.minutes ≤ 1439)) ∧
    interpolate [⟨600, F.fin 10, F.fin 2⟩, ⟨601, F.fin 0, F.fin 4⟩, ⟨602, F.fin 0, F.fin 6⟩] =
      some [⟨600, F.fin 10, F.fin 2⟩, ⟨601, F.fin 0, F.fin 4⟩, ⟨602, F.fin 0, F.fin 6⟩] :=
  ⟨⟨by simp, by simp [List.chain'_cons], by decide⟩,
    interpolate_dense_id _ (by simp) (by simp [List.chain'_cons]) (by decide)⟩

/-- Helper for C2: the code's interpolation loop coincides with the
spec's explicitly-guarded version on every input, because the synthesis
range `x1+1..x2` is empty exactly when the guard would skip it. -/
theorem interpPairs_eq_guarded : ∀ l : List PlotData, interpPairs l = interpPairsGuarded l
  | [] => rfl
  | [_] => rfl
  | a :: b :: t => by
    have ih := interpPairs_eq_guarded (b :: t)
    by_cases h : asI32 a.minutes = asI32 b.minutes
    · simp only [interpPairs, interpPairsGuarded, if_pos h, ih,
        synthPoints_eq_nil (by omega : asI32 b.minutes ≤ asI32 a.minutes + 1)]
      simp
    · simp only [interpPairs, interpPairsGuarded, if_neg h, ih]

theorem isFin_exists {v : F} (h : v.isFin = true) : ∃ q : ℚ, v = F.fin q := by
  cases v with
  | fin q => exact ⟨q, rfl⟩
  | pinf => simp [F.isFin] at h
  | ninf => simp [F.isFin] at h
  | nan => simp [F.isFin] at h

theorem synthPoints_pv_isFin {x1 x2 : ℤ} {α β : ℚ} {p : PlotData}
    (hp : p ∈ synthPoints x1 x2 ((F.fin α - F.fin β) / F.fin ((x1 - x2 : ℤ) : ℚ))
      (F.fin α - F.fin (x1 : ℚ) * ((F.fin α - F.fin β) / F.fin ((x1 - x2 : ℤ) : ℚ)))) :
    p.pv.isFin = true := by
  by_cases hx : x1 = x2
  · rw [hx, synthPoints_eq_nil (by omega)] at hp
    simp at hp
  · have hd : ((x1 - x2 : ℤ) : ℚ) ≠ 0 := by
      rw [Int.cast_ne_zero]
      omega
    simp only [synthPoints, List.mem_map] at hp
    obtain ⟨j, hj, rfl⟩ := hp
    simp only [F.fin_sub_fin, F.fin_div_fin _ _ hd, F.fin_mul_fin, F.fin_add_fin]
    rfl

theorem interpPairs_pv_isFin : ∀ l : List PlotData, (∀ p ∈ l, p.pv.isFin = true) →
    ∀ p ∈ interpPairs l, p.pv.isFin = true
  | [], _, p, hp => by simp [interpPairs] at hp
  | [_], _, p, hp => by simp [interpPairs] at hp
  | a :: b :: t, hfin, p, hp => by
    obtain ⟨α, hα⟩ := isFin_exists (hfin a (by simp))
    obtain ⟨β, hβ⟩ := isFin_exists (hfin b (by simp))
    simp only [interpPairs, hα, hβ, List.mem_cons, List.mem_append] at hp
    rcases hp with rfl | hsyn | hrec
    · rw [hα]; rfl
    · exact synthPoints_pv_isFin hsyn
    · exact interpPairs_pv_isFin (b :: t) (fun q hq => hfin q (by simp [hq])) p hrec

/-- C2: for an input containing two consecutive points with the same
`minuteOfDay` (all `pv` finite), `interpolate` behaves exactly like the
spec's explicit zero-width handling (skip synthesis for the pair, keep
both points) and never emits a point with an infinite or NaN `pv`: the
`inf`/NaN slope of the degenerate pair is computed but feeds no emitted
point. -/
theorem interpolate_zero_width (input : List PlotData)
    (hdup : ∃ j, j + 1 < input.length ∧
      (input.getD j default).minutes = (input.getD (j+1) default).minutes)
    (hfin : ∀ p ∈ input, p.pv.isFin = true) :
    ∃ out, interpolate input = some out ∧
      interpolateGuarded input = some out ∧
      ∀ p ∈ out, p.pv.isFin = true := by
  have hne : input ≠ [] := by
    obtain ⟨j, hj, _⟩ := hdup
    intro h
    rw [h] at hj
    simp at hj
  obtain ⟨p, rest, rfl⟩ := List.exists_cons_of_ne_nil hne
  refine ⟨_, rfl, ?_, ?_⟩
  · simp only [interpolateGuarded, interpolate, interpPairs_eq_guarded]
  · intro q hq
    rcases List.mem_append.mp hq with h | h
    · exact interpPairs_pv_isFin _ hfin q h
    · simp only [List.mem_singleton] at h
      subst h
      exact hfin _ (List.getLast_mem _)

/-- Witness for C2 at a concrete duplicated-minute input. -/
theorem interpolate_zero_width_witness :
    ((∃ j, j + 1 < ([⟨5, F.fin 0, F.fin 2⟩, ⟨5, F.fin 1, F.fin 4⟩] : List PlotData).length ∧
        (([⟨5, F.fin 0, F.fin 2⟩, ⟨5, F.fin 1, F.fin 4⟩] : List PlotData).getD j
          default).minutes =
        (([⟨5, F.fin 0, F.fin 2⟩, ⟨5, F.fin 1, F.fin 4⟩] : List PlotData).getD (j+1)
          default).minutes) ∧
     (∀ p ∈ ([⟨5, F.fin 0, F.fin 2⟩, ⟨5, F.fin 1, F.fin 4⟩] : List PlotData),
        p.pv.isFin = true)) ∧
    (∃ out, interpolate [⟨5, F.fin 0, F.fin 2⟩, ⟨5, F.fin 1, F.fin 4⟩] = some out ∧
      interpolateGuarded [⟨5, F.fin 0, F.fin 2⟩, ⟨5, F.fin 1, F.fin 4⟩] = some out ∧
      ∀ p ∈ out, p.pv.isFin = true) :=
  ⟨⟨⟨0, by simp, rfl⟩, by decide⟩,
    interpolate_zero_width _ ⟨0, by simp, rfl⟩ (by decide)⟩

/-- Helper: in a sequence sorted by `minutes` every element's `minutes`
is at most the last element's. -/
theorem pairwise_le_getLast : ∀ (l : List PlotData) (hne : l ≠ []),
    l.Pairwise (fun a b => a.minutes ≤ b.minutes) →
    ∀ p ∈ l, p.minutes ≤ (l.getLast hne).minutes
  | [a], _, _, p, hp => by
    simp only [List.mem_singleton] at hp
    subst hp
    simp [List.getLast]
  | a :: b :: t, _, hpw, p, hp => by
    have hpw' := List.pairwise_cons.mp hpw
    rw [List.getLast_cons (List.cons_ne_nil b t)]
    rcases List.mem_cons.mp hp with rfl | hp'
    · exact hpw'.1 _ (List.getLast_mem (List.cons_ne_nil b t))
    · exact pairwise_le_getLast (b :: t) (List.cons_ne_nil b t) hpw'.2 p hp'

/-- Helper for C6: unfolding of `stretch` when the positive filter is
non-empty. -/
theorem stretch_eq_of_filter_cons {input : List PlotData} {q : PlotData} {qs : List PlotData}
    (h : input.filter (fun p => p.pv.gtZero) = q :: qs) :
    stretch input = some ((q :: qs).map (fun p =>
      let minutes : F := maxF (F.fin (p.minutes : ℚ) - F.fin (q.minutes : ℚ)) (F.fin 0) *
        (F.fin 1439 / (F.fin (((q :: qs).getLast (List.cons_ne_nil q qs)).minutes : ℚ) -
          F.fin (q.minutes : ℚ)))
      { minutes := (minF (maxF minutes.roundF (F.fin 0)) (F.fin 1439)).toU32,
        x := minutes / F.fin 60,
        pv := p.pv })) := by
  simp only [stretch, h]

/-- Helper for C6: the first kept point's rescaled `minutes` is exactly
0. -/
theorem stretch_head_minutes {s e : ℕ} (hse : s < e) :
    (minF (maxF (roundF (maxF (F.fin (s:ℚ) - F.fin (s:ℚ)) (F.fin 0) *
      (F.fin 1439 / (F.fin (e:ℚ) - F.fin (s:ℚ))))) (F.fin 0)) (F.fin 1439)).toU32 = 0 := by
  have hne : ((e:ℚ) - (s:ℚ)) ≠ 0 := sub_ne_zero_of_ne (ne_of_gt (by exact_mod_cast hse))
  rw [F.fin_sub_fin (e:ℚ), F.fin_div_fin _ _ hne]
  rw [F.fin_sub_fin, sub_self, F.maxF_fin_fin, max_self, F.fin_mul_fin, zero_mul,
    F.roundF_fin]
  have h0 : F.rustRound 0 = 0 := by simp [F.rustRound]
  rw [h0]
  rw [show (((0:ℤ):ℚ)) = ((0:ℕ):ℚ) by norm_num]
  rw [F.maxF_fin_fin]
  rw [show max ((0:ℕ):ℚ) 0 = ((0:ℕ):ℚ) by norm_num]
  rw [F.minF_fin_fin]
  rw [show min ((0:ℕ):ℚ) 1439 = ((0:ℕ):ℚ) by norm_num]
  exact F.toU32_natCast 0 (by norm_num)

/-- Helper for C6: the last kept point's rescaled `minutes` is exactly
1439. -/
theorem stretch_last_minutes {s e : ℕ} (hse : s < e) :
    (minF (maxF (roundF (maxF (F.fin (e:ℚ) - F.fin (s:ℚ)) (F.fin 0) *
      (F.fin 1439 / (F.fin (e:ℚ) - F.fin (s:ℚ))))) (F.fin 0)) (F.fin 1439)).toU32 = 1439 := by
  have hlt : ((s:ℚ)) < (e:ℚ) := by exact_mod_cast hse
  have hne : ((e:ℚ) - (s:ℚ)) ≠ 0 := sub_ne_zero_of_ne (ne_of_gt hlt)
  rw [F.fin_sub_fin (e:ℚ), F.fin_div_fin _ _ hne, F.maxF_fin_fin,
    max_eq_left (by linarith : (0:ℚ) ≤ (e:ℚ) - (s:ℚ)), F.fin_mul_fin,
    mul_div_assoc', mul_div_cancel_left₀ _ hne, F.roundF_fin]
  have h1439 : F.rustRound (1439:ℚ) = ((1439:ℕ):ℤ) := by
    rw [show (1439:ℚ) = ((1439:ℕ):ℚ) by norm_num]
    exact F.rustRound_natCast 1439
  rw [h1439]
  rw [show ((((1439:ℕ):ℤ)):ℚ) = ((1439:ℕ):ℚ) by norm_num]
  rw [F.maxF_fin_fin]
  rw [show max ((1439:ℕ):ℚ) 0 = ((1439:ℕ):ℚ) by norm_num]
  rw [F.minF_fin_fin]
  rw [show min ((1439:ℕ):ℚ) 1439 = ((1439:ℕ):ℚ) by norm_num]
  exact F.toU32_natCast 1439 (by norm_num)

/-- C6: for a sorted input with at least two positive samples at
distinct minutes, `stretch` succeeds and its output starts at
`minuteOfDay = 0`, ends at `minuteOfDay = 1439` (exactly, hence within
the claimed ±1 tolerance), has every `pv` strictly positive, and is no
longer than the input. -/
theorem stretch_spans_day (input : List PlotData)
    (hsorted : input.Pairwise (fun a b => a.minutes ≤ b.minutes))
    (hpos2 : ∃ a ∈ input, ∃ b ∈ input,
      a.pv.gtZero = true ∧ b.pv.gtZero = true ∧ a.minutes ≠ b.minutes) :
    ∃ out, stretch input = some out ∧
      (out.map (fun p => p.minutes)).head? = some 0 ∧
      (out.map (fun p => p.minutes)).getLast? = some 1439 ∧
      (∀ p ∈ out, p.pv.gtZero = true) ∧
      out.length ≤ input.length := by
  obtain ⟨a, ha, b, hb, hga, hgb, hab⟩ := hpos2
  have ha' : a ∈ input.filter (fun p => p.pv.gtZero) := List.mem_filter.mpr ⟨ha, hga⟩
  have hb' : b ∈ input.filter (fun p => p.pv.gtZero) := List.mem_filter.mpr ⟨hb, hgb⟩
  obtain ⟨q, qs, hqqs⟩ := List.exists_cons_of_ne_nil (List.ne_nil_of_mem ha')
  rw [hqqs] at ha' hb'
  have hpw : (q :: qs).Pairwise (fun a b => a.minutes ≤ b.minutes) := by
    rw [← hqqs]
    exact List.Pairwise.sublist (List.filter_sublist input) hsorted
  have hble : ∀ p ∈ q :: qs, p.minutes ≤ ((q :: qs).getLast (List.cons_ne_nil q qs)).minutes :=
    pairwise_le_getLast _ _ hpw
  have hqle : ∀ p ∈ q :: qs, q.minutes ≤ p.minutes := by
    intro p hp
    rcases List.mem_cons.mp hp with rfl | hp'
    · exact le_refl _
    · exact (List.pairwise_cons.mp hpw).1 p hp'
  have hse : q.minutes < ((q :: qs).getLast (List.cons_ne_nil q qs)).minutes := by
    have h1 := hqle a ha'
    have h2 := hqle b hb'
    have h3 := hble a ha'
    have h4 := hble b hb'
    omega
  refine ⟨_, stretch_eq_of_filter_cons hqqs, ?_, ?_, ?_, ?_⟩
  · rw [List.map_cons, List.map_cons, List.head?_cons]
    exact congrArg some (stretch_head_minutes hse)
  · rw [List.getLast?_map, List.getLast?_map,
      List.getLast?_eq_getLast _ (List.cons_ne_nil q qs), Option.map_some', Option.map_some']
    exact congrArg some (stretch_last_minutes hse)
  · intro p hp
    obtain ⟨p0, hp0, rfl⟩ := List.mem_map.mp hp
    have hp0f : p0 ∈ input.filter (fun r => r.pv.gtZero) := by
      rw [hqqs]
      exact hp0
    exact (List.mem_filter.mp hp0f).2
  · rw [List.length_map, ← hqqs]
    exact List.length_filter_le _ _

/-- Witness for C6 at a concrete 3-point all-positive sorted input. -/
theorem stretch_spans_day_witness :
    (([⟨300, F.fin 0, F.fin 5⟩, ⟨600, F.fin 0, F.fin 7⟩, ⟨900, F.fin 0, F.fin 3⟩] :
        List PlotData).Pairwise (fun a b => a.minutes ≤ b.minutes) ∧
     (∃ a ∈ ([⟨300, F.fin 0, F.fin 5⟩, ⟨600, F.fin 0, F.fin 7⟩, ⟨900, F.fin 0, F.fin 3⟩] :
        List PlotData), ∃ b ∈ ([⟨300, F.fin 0, F.fin 5⟩, ⟨600, F.fin 0, F.fin 7⟩,
        ⟨900, F.fin 0, F.fin 3⟩] : List PlotData),
        a.pv.gtZero = true ∧ b.pv.gtZero = true ∧ a.minutes ≠ b.minutes)) ∧
    (∃ out, stretch [⟨300, F.fin 0, F.fin 5⟩, ⟨600, F.fin 0, F.fin 7⟩,
        ⟨900, F.fin 0, F.fin 3⟩] = some out ∧
      (out.map (fun p => p.minutes)).head? = some 0 ∧
      (out.map (fun p => p.minutes)).getLast? = some 1439 ∧
      (∀ p ∈ out, p.pv.gtZero = true) ∧
      out.length ≤ ([⟨300, F.fin 0, F.fin 5⟩, ⟨600, F.fin 0, F.fin 7⟩,
        ⟨900, F.fin 0, F.fin 3⟩] : List PlotData).length) :=
  ⟨⟨by norm_num [List.pairwise_cons],
    ⟨⟨300, F.fin 0, F.fin 5⟩, by simp, ⟨600, F.fin 0, F.fin 7⟩, by simp,
      by decide, by decide, by decide⟩⟩,
   stretch_spans_day _ (by norm_num [List.pairwise_cons])
     ⟨⟨300, F.fin 0, F.fin 5⟩, by simp, ⟨600, F.fin 0, F.fin 7⟩, by simp,
       by decide, by decide, by decide⟩⟩

/-- Helper: in a strictly increasing sequence the head's `minutes` is
at most the last's. -/
theorem chain_lt_head_le_getLast : ∀ (l : List PlotData) (hne : l ≠ []),
    l.Chain' (fun a b => a.minutes < b.minutes) →
    (l.head hne).minutes ≤ (l.getLast hne).minutes
  | [_], _, _ => le_refl _
  | a :: b :: t, _, h => by
    obtain ⟨hab, h'⟩ := List.chain'_cons.mp h
    have ih := chain_lt_head_le_getLast (b :: t) (List.cons_ne_nil b t) h'
    rw [List.head_cons, List.getLast_cons (List.cons_ne_nil b t)]
    exact le_trans (le_of_lt hab) ih

/-- Helper for C7: the synthesized points for one pair cover exactly
the integer minutes strictly between the pair. -/
theorem synthPoints_map_minutes {a b : ℕ} (ha : a ≤ 1439) (hb : b ≤ 1439) (hab : a < b)
    (k m : F) :
    (synthPoints (asI32 a) (asI32 b) k m).map (fun p => p.minutes) =
      List.range' (a + 1) (b - a - 1) := by
  have h1 : asI32 a = (a : ℤ) := by
    simp only [asI32]
    rw [if_pos (by omega)]
  have h2 : asI32 b = (b : ℤ) := by
    simp only [asI32]
    rw [if_pos (by omega)]
  rw [h1, h2]
  have htn : ((b : ℤ) - (a : ℤ) - 1).toNat = b - a - 1 := by omega
  rw [synthPoints, List.map_map, htn, List.range'_eq_map_range]
  apply List.map_congr_left
  intro j hj
  have hjlt : j < b - a - 1 := List.mem_range.mp hj
  simp only [Function.comp_apply]
  show i32AsU32 ((a : ℤ) + 1 + (j : ℤ)) = a + 1 + j
  rw [i32AsU32, Int.emod_eq_of_lt (by omega) (by omega)]
  omega

/-- Helper for C7: the interpolation loop emits exactly the minutes
`head, head+1, ..., last-1` in order. -/
theorem interpPairs_map_minutes : ∀ (l : List PlotData) (hne : l ≠ []),
    l.Chain' (fun a b => a.minutes < b.minutes) →
    (∀ p ∈ l, p.minutes ≤ 1439) →
    (interpPairs l).map (fun p => p.minutes) =
      List.range' (l.head hne).minutes ((l.getLast hne).minutes - (l.head hne).minutes)
  | [a], _, _, _ => by simp [interpPairs]
  | a :: b :: t, _, hchain, hbound => by
    obtain ⟨hab, hchain'⟩ := List.chain'_cons.mp hchain
    have ha := hbound a (by simp)
    have hb := hbound b (by simp)
    have ih := interpPairs_map_minutes (b :: t) (List.cons_ne_nil b t) hchain'
      (fun p hp => hbound p (by simp [hp]))
    have hble : b.minutes ≤ ((b :: t).getLast (List.cons_ne_nil b t)).minutes := by
      have hh := chain_lt_head_le_getLast (b :: t) (List.cons_ne_nil b t) hchain'
      simpa using hh
    rw [List.head_cons, List.getLast_cons (List.cons_ne_nil b t)]
    simp only [interpPairs]
    rw [List.map_cons, List.map_append, synthPoints_map_minutes ha hb hab, ih]
    simp only [List.head_cons]
    have happ := List.range'_append (a.minutes + 1) (b.minutes - a.minutes - 1)
      (((b :: t).getLast (List.cons_ne_nil b t)).minutes - b.minutes) 1
    rw [show a.minutes + 1 + 1 * (b.minutes - a.minutes - 1) = b.minutes from by omega] at happ
    rw [happ, ← List.range'_succ]
    congr 1
    omega

/-- C7: on a non-empty input with strictly increasing `minutes` (within
the 0..1439 day range), `interpolate` succeeds and its output has
exactly one point per integer minute from the first input minute to the
last inclusive: length `last - first + 1`, minute `first + j` at index
`j`, and adjacent minutes differing by exactly 1. -/
theorem interpolate_fills_range (input : List PlotData) (hne : input ≠ [])
    (hchain : input.Chain' (fun a b => a.minutes < b.minutes))
    (hbound : ∀ p ∈ input, p.minutes ≤ 1439) :
    ∃ out, interpolate input = some out ∧
      out.length = (input.getLast hne).minutes - (input.head hne).minutes + 1 ∧
      (∀ j < out.length, (out.getD j default).minutes = (input.head hne).minutes + j) ∧
      (∀ j, j + 1 < out.length →
        (out.getD (j+1) default).minutes = (out.getD j default).minutes + 1) := by
  obtain ⟨p, rest, rfl⟩ := List.exists_cons_of_ne_nil hne
  have hfl : ((p :: rest).head (List.cons_ne_nil p rest)).minutes ≤
      ((p :: rest).getLast (List.cons_ne_nil p rest)).minutes :=
    chain_lt_head_le_getLast (p :: rest) (List.cons_ne_nil p rest) hchain
  have hmap : ((interpPairs (p :: rest) ++
        [(p :: rest).getLast (List.cons_ne_nil p rest)]).map (fun q => q.minutes)) =
      List.range' ((p :: rest).head (List.cons_ne_nil p rest)).minutes
        ((((p :: rest).getLast (List.cons_ne_nil p rest)).minutes -
          ((p :: rest).head (List.cons_ne_nil p rest)).minutes) + 1) := by
    rw [List.map_append, interpPairs_map_minutes _ (List.cons_ne_nil p rest) hchain hbound,
      List.map_singleton, List.range'_concat]
    congr 1
    congr 1
    omega
  have hlen : (interpPairs (p :: rest) ++
      [(p :: rest).getLast (List.cons_ne_nil p rest)]).length =
      (((p :: rest).getLast (List.cons_ne_nil p rest)).minutes -
        ((p :: rest).head (List.cons_ne_nil p rest)).minutes) + 1 := by
    have hc := congrArg List.length hmap
    rw [List.length_map, List.length_range'] at hc
    exact hc
  have hidx : ∀ j < (interpPairs (p :: rest) ++
      [(p :: rest).getLast (List.cons_ne_nil p rest)]).length,
      (((interpPairs (p :: rest) ++
        [(p :: rest).getLast (List.cons_ne_nil p rest)]).getD j default).minutes =
        ((p :: rest).head (List.cons_ne_nil p rest)).minutes + j) := by
    intro j hj
    have hc := congrArg (fun t => t[j]?) hmap
    simp only [List.getElem?_map] at hc
    rw [List.getElem?_range' _ _ (by rw [← hlen]; exact hj), List.getElem?_eq_getElem hj,
      Option.map_some'] at hc
    have hval := Option.some.inj hc
    rw [List.getD_eq_getElem _ _ hj, hval, one_mul]
  refine ⟨_, rfl, hlen, hidx, ?_⟩
  intro j hj
  have h1 := hidx (j+1) hj
  have h2 := hidx j (by omega)
  omega

/-- Witness for C7 at the spec's scenario minutes [100, 105]. -/
theorem interpolate_fills_range_witness :
    (([⟨100, F.fin 0, F.fin 0⟩, ⟨105, F.fin 0, F.fin 10⟩] : List PlotData) ≠ [] ∧
     ([⟨100, F.fin 0, F.fin 0⟩, ⟨105, F.fin 0, F.fin 10⟩] :
        List PlotData).Chain' (fun a b => a.minutes < b.minutes) ∧
     (∀ p ∈ ([⟨100, F.fin 0, F.fin 0⟩, ⟨105, F.fin 0, F.fin 10⟩] : List PlotData),
        p.minutes ≤ 1439)) ∧
    (∃ out, interpolate [⟨100, F.fin 0, F.fin 0⟩, ⟨105, F.fin 0, F.fin 10⟩] = some out ∧
      out.length = (([⟨100, F.fin 0, F.fin 0⟩, ⟨105, F.fin 0, F.fin 10⟩] :
          List PlotData).getLast (by simp)).minutes -
        (([⟨100, F.fin 0, F.fin 0⟩, ⟨105, F.fin 0, F.fin 10⟩] :
          List PlotData).head (by simp)).minutes + 1 ∧
      (∀ j < out.length, (out.getD j default).minutes =
        (([⟨100, F.fin 0, F.fin 0⟩, ⟨105, F.fin 0, F.fin 10⟩] :
          List PlotData).head (by simp)).minutes + j) ∧
      (∀ j, j + 1 < out.length →
        (out.getD (j+1) default).minutes = (out.getD j default).minutes + 1)) :=
  ⟨⟨by simp, by norm_num [List.chain'_cons], by decide⟩,
    interpolate_fills_range _ (by simp) (by norm_num [List.chain'_cons]) (by decide)⟩

/-- Helper: `getD` through a `map` over `PlotData` lists. -/
theorem getD_map_plot (f : PlotData → PlotData) (l : List PlotData) (i : ℕ)
    (hi : i < l.length) : (l.map f).getD i default = f (l.getD i default) := by
  rw [List.getD_eq_getElem _ _ (by rw [List.length_map]; exact hi),
    List.getD_eq_getElem _ _ hi, List.getElem_map]

/-- Helper for C8: the `fold(0.0, max)` of `fn normalize` on all-finite
values yields a finite maximum that bounds every `pv`, is at least the
seed, and (unless it equals the seed) is attained by some element. -/
theorem foldMax_spec : ∀ (l : List PlotData) (c : ℚ), (∀ p ∈ l, p.pv.isFin = true) →
    ∃ μ : ℚ, l.foldl (fun acc q => maxF q.pv acc) (F.fin c) = F.fin μ ∧ c ≤ μ ∧
      (∀ p ∈ l, ∀ a : ℚ, p.pv = F.fin a → a ≤ μ) ∧
      (μ = c ∨ ∃ p ∈ l, p.pv = F.fin μ)
  | [], c, _ => ⟨c, rfl, le_refl c, by simp, Or.inl rfl⟩
  | p :: t, c, hfin => by
    obtain ⟨α, hα⟩ := isFin_exists (hfin p (by simp))
    obtain ⟨μ, hfold, hle, hbd, hat⟩ := foldMax_spec t (max α c)
      (fun q hq => hfin q (by simp [hq]))
    refine ⟨μ, ?_, ?_, ?_, ?_⟩
    · rw [List.foldl_cons, hα, F.maxF_fin_fin]
      exact hfold
    · exact le_trans (le_max_right α c) hle
    · intro q hq a ha
      rcases List.mem_cons.mp hq with rfl | hq'
      · have haα : α = a := F.fin.inj (hα ▸ ha)
        subst haα
        exact le_trans (le_max_left α c) hle
      · exact hbd q hq' a ha
    · rcases hat with hmc | ⟨q, hq, hqpv⟩
      · rcases max_choice α c with hm | hm
        · exact Or.inr ⟨p, by simp, by rw [hα, hmc, hm]⟩
        · exact Or.inl (by rw [hmc, hm])
      · exact Or.inr ⟨q, by simp [hq], hqpv⟩

/-- C8: for a non-empty sorted input with positive last `minuteOfDay`
and a positive (finite) maximum `pv`, every `normalize` output point has
`x` in [0, 1], the last output `x` is exactly 1, and the point carrying
the maximum input `pv` gets output `pv` exactly 1. -/
theorem normalize_unit (input : List PlotData) (hne : input ≠ [])
    (hsorted : input.Pairwise (fun a b => a.minutes ≤ b.minutes))
    (hlastpos : 0 < (input.getLast hne).minutes)
    (hfin : ∀ p ∈ input, p.pv.isFin = true)
    (hpos : ∃ p ∈ input, p.pv.gtZero = true) :
    ∃ out, normalize input = some out ∧
      (∀ p ∈ out, ∃ r : ℚ, p.x = F.fin r ∧ 0 ≤ r ∧ r ≤ 1) ∧
      ((out.map (fun p => p.x)).getLast? = some (F.fin 1)) ∧
      (∃ i < input.length, (input.getD i default).pv = pvMax input ∧
        (out.getD i default).pv = F.fin 1) := by
  obtain ⟨p, rest, rfl⟩ := List.exists_cons_of_ne_nil hne
  have heq : (0:ℚ) < ((((p :: rest).getLast (List.cons_ne_nil p rest)).minutes : ℕ) : ℚ) := by
    exact_mod_cast hlastpos
  have hene : (((((p :: rest).getLast (List.cons_ne_nil p rest)).minutes : ℕ)) : ℚ) ≠ 0 :=
    ne_of_gt heq
  obtain ⟨μ, hfold, hle0, hbd, hat⟩ := foldMax_spec (p :: rest) 0 hfin
  have hpv : pvMax (p :: rest) = F.fin μ := hfold
  obtain ⟨p0, hp0mem, hp0g⟩ := hpos
  obtain ⟨a0, ha0⟩ := isFin_exists (hfin p0 hp0mem)
  have h0a0 : 0 < a0 := by
    rw [ha0] at hp0g
    simpa [F.gtZero] using hp0g
  have hμpos : 0 < μ := lt_of_lt_of_le h0a0 (hbd p0 hp0mem a0 ha0)
  have hμne : μ ≠ 0 := ne_of_gt hμpos
  have hatt : ∃ pm ∈ (p :: rest), pm.pv = F.fin μ := by
    rcases hat with h | h
    · exact absurd h hμne
    · exact h
  obtain ⟨pm, hpmmem, hpmpv⟩ := hatt
  obtain ⟨i, hi, hieq⟩ := List.getElem_of_mem hpmmem
  have hout : normalize (p :: rest) = some ((p :: rest).map (fun q =>
      { minutes := q.minutes,
        x := F.fin (q.minutes : ℚ) /
          F.fin ((((p :: rest).getLast (List.cons_ne_nil p rest)).minutes : ℕ) : ℚ),
        pv := q.pv / pvMax (p :: rest) })) := rfl
  refine ⟨_, hout, ?_, ?_, ?_⟩
  · intro q hq
    obtain ⟨q0, hq0, rfl⟩ := List.mem_map.mp hq
    refine ⟨(q0.minutes : ℚ) /
      ((((p :: rest).getLast (List.cons_ne_nil p rest)).minutes : ℕ) : ℚ), ?_, ?_, ?_⟩
    · exact F.fin_div_fin _ _ hene
    · apply div_nonneg <;> positivity
    · rw [div_le_one heq]
      exact_mod_cast pairwise_le_getLast _ (List.cons_ne_nil p rest) hsorted q0 hq0
  · rw [List.getLast?_map, List.getLast?_map,
      List.getLast?_eq_getLast _ (List.cons_ne_nil p rest), Option.map_some', Option.map_some']
    refine congrArg some ?_
    show F.fin ((((p :: rest).getLast (List.cons_ne_nil p rest)).minutes : ℕ) : ℚ) /
      F.fin ((((p :: rest).getLast (List.cons_ne_nil p rest)).minutes : ℕ) : ℚ) = F.fin 1
    rw [F.fin_div_fin _ _ hene, div_self hene]
  · refine ⟨i, hi, ?_, ?_⟩
    · rw [List.getD_eq_getElem _ _ hi, hieq, hpmpv, hpv]
    · rw [getD_map_plot _ _ _ hi]
      show ((p :: rest).getD i default).pv / pvMax (p :: rest) = F.fin 1
      rw [List.getD_eq_getElem _ _ hi, hieq, hpmpv, hpv, F.fin_div_fin _ _ hμne, div_self hμne]

/-- Witness for C8 at a concrete 2-point input. -/
theorem normalize_unit_witness :
    (([⟨0, F.fin 0, F.fin 1⟩, ⟨2, F.fin 0, F.fin 5⟩] : List PlotData) ≠ [] ∧
     ([⟨0, F.fin 0, F.fin 1⟩, ⟨2, F.fin 0, F.fin 5⟩] :
        List PlotData).Pairwise (fun a b => a.minutes ≤ b.minutes) ∧
     0 < (([⟨0, F.fin 0, F.fin 1⟩, ⟨2, F.fin 0, F.fin 5⟩] :
        List PlotData).getLast (by simp)).minutes ∧
     (∀ p ∈ ([⟨0, F.fin 0, F.fin 1⟩, ⟨2, F.fin 0, F.fin 5⟩] : List PlotData),
        p.pv.isFin = true) ∧
     (∃ p ∈ ([⟨0, F.fin 0, F.fin 1⟩, ⟨2, F.fin 0, F.fin 5⟩] : List PlotData),
        p.pv.gtZero = true)) ∧
    (∃ out, normalize [⟨0, F.fin 0, F.fin 1⟩, ⟨2, F.fin 0, F.fin 5⟩] = some out ∧
      (∀ p ∈ out, ∃ r : ℚ, p.x = F.fin r ∧ 0 ≤ r ∧ r ≤ 1) ∧
      ((out.map (fun p => p.x)).getLast? = some (F.fin 1)) ∧
      (∃ i < ([⟨0, F.fin 0, F.fin 1⟩, ⟨2, F.fin 0, F.fin 5⟩] : List PlotData).length,
        (([⟨0, F.fin 0, F.fin 1⟩, ⟨2, F.fin 0, F.fin 5⟩] : List PlotData).getD i default).pv =
          pvMax [⟨0, F.fin 0, F.fin 1⟩, ⟨2, F.fin 0, F.fin 5⟩] ∧
        (out.getD i default).pv = F.fin 1)) :=
  ⟨⟨by simp, by norm_num [List.pairwise_cons], by decide, by decide,
    ⟨⟨2, F.fin 0, F.fin 5⟩, by simp, by decide⟩⟩,
   normalize_unit _ (by simp) (by norm_num [List.pairwise_cons]) (by decide) (by decide)
     ⟨⟨2, F.fin 0, F.fin 5⟩, by simp, by decide⟩⟩

end MygridPV
